import Mathlib

/-!
Verification of the parameter-sweep test harness (src/main.py).

Shallow embedding conventions:
* Python numbers (floats used for temperature and top_p, ints used for
  top_k and seed) are modelled as exact rationals and integers.  The
  builtin round(x, 2) is modelled as rounding to the nearest multiple of
  1/100 with ties broken towards even, which is the documented behaviour
  of the Python builtin.
* The three while-loops in start that expand a (min, max, increment)
  range can fail to terminate (for a non-positive increment), so they are
  modelled with explicit fuel, returning Option.none when the fuel runs
  out before the loop exits.
* Side effects of the orchestrator (directory creation, inference calls,
  file writes) are modelled as an explicit list of effect values; the
  file system is modelled as a map from path to contents.
-/

/-- Rounding of a rational to the nearest integer, ties to even
(the tie rule of the Python builtin round). -/
def rhe (q : ℚ) : ℤ :=
  if q - ⌊q⌋ < 1/2 then ⌊q⌋
  else if 1/2 < q - ⌊q⌋ then ⌊q⌋ + 1
  else if ⌊q⌋ % 2 = 0 then ⌊q⌋ else ⌊q⌋ + 1

/-- Model of round(x, 2): round to the nearest multiple of 1/100. -/
def round2 (q : ℚ) : ℚ := (rhe (100 * q) : ℚ) / 100

/-- Model of the while-loops of start that expand a rounded range
(temperature, lines 175-180, and top_p, lines 195-200 of src/main.py):
  while t <= max: values.append(round(t, 2)); t = t + inc
Fuel-indexed; returns Option.none when the loop has not finished within
fuel iterations. -/
def rangeLoopRounded (maxV inc : ℚ) : ℕ → ℚ → List ℚ → Option (List ℚ)
  | 0, _, _ => Option.none
  | fuel + 1, t, acc =>
      if t ≤ maxV then rangeLoopRounded maxV inc fuel (t + inc) (acc ++ [round2 t])
      else some acc

/-- Model of the top_k while-loop (lines 185-190 of src/main.py), which
steps an integer with no rounding. -/
def rangeLoopInt (maxV inc : ℤ) : ℕ → ℤ → List ℤ → Option (List ℤ)
  | 0, _, _ => Option.none
  | fuel + 1, k, acc =>
      if k ≤ maxV then rangeLoopInt maxV inc fuel (k + inc) (acc ++ [k])
      else some acc

/-- temperature_values (lines 175-182): range mode when both temp_min and
temp_max are given, otherwise the fixed value. -/
def temperatureValues (temp : ℚ) (tmin tmax : Option ℚ) (tinc : ℚ) (fuel : ℕ) :
    Option (List ℚ) :=
  match tmin, tmax with
  | some mn, some mx => rangeLoopRounded mx tinc fuel mn []
  | _, _ => some [temp]

/-- top_k_values (lines 185-192). -/
def topKValues (topK : ℤ) (kmin kmax : Option ℤ) (kinc : ℤ) (fuel : ℕ) :
    Option (List ℤ) :=
  match kmin, kmax with
  | some mn, some mx => rangeLoopInt mx kinc fuel mn []
  | _, _ => some [topK]

/-- top_p_values (lines 195-202). -/
def topPValues (topP : ℚ) (pmin pmax : Option ℚ) (pinc : ℚ) (fuel : ℕ) :
    Option (List ℚ) :=
  match pmin, pmax with
  | some mn, some mx => rangeLoopRounded mx pinc fuel mn []
  | _, _ => some [topP]

/-- A Python scalar as it appears in the options dictionaries. -/
inductive PyVal where
  | int (n : ℤ)
  | float (q : ℚ)
  | none
deriving DecidableEq

/-- An options dictionary, as an insertion-ordered association list with
unique keys (the Python dict of the source). -/
abbrev OptionSet := List (String × PyVal)

/-- Python dict assignment m[k] = v: overwrite in place when the key is
present, otherwise append at the end (insertion order). -/
def setKey (m : OptionSet) (k : String) (v : PyVal) : OptionSet :=
  if m.any (fun p => p.1 = k) then
    m.map (fun p => if p.1 = k then (k, v) else p)
  else m ++ [(k, v)]

/-- Python dict lookup m[k] (keys are unique, so first match). -/
def getKey : OptionSet → String → Option PyVal
  | [], _ => Option.none
  | (k, v) :: rest, key => if key = k then some v else getKey rest key

/-- base_options (lines 220-223 of src/main.py). -/
def baseOptions (seed numPredict : PyVal) : OptionSet :=
  [("seed", seed), ("num_predict", numPredict)]

/-- test_options (lines 224-237 of src/main.py): for each expanded value
of each sweepable parameter, a copy of base_options with that single key
assigned. -/
def buildTestOptions (base : OptionSet) (temps : List ℚ) (ks : List ℤ)
    (ps : List ℚ) : List OptionSet :=
  temps.map (fun t => setKey base "temperature" (PyVal.float t))
    ++ ks.map (fun k => setKey base "top_k" (PyVal.int k))
    ++ ps.map (fun p => setKey base "top_p" (PyVal.float p))

/-- The streaming collector of run_prompt (lines 77-80 of src/main.py):
  full_response = ""
  for chunk in iter(stream): full_response = full_response + chunk
-/
def collectStream (chunks : List String) : String :=
  chunks.foldl (fun r c => r ++ c) ""

/-- Concatenation of the fragments in arrival order, written by plain
structural recursion; used as the specification-side description of the
collector. -/
def concatFrags : List String → String
  | [] => ""
  | c :: rest => c ++ concatFrags rest

/-- A single-quote character, used by the Python repr of a dict. -/
def squote : String := String.singleton (Char.ofNat 39)

/-- Text form of one option value, as the Python repr of the dict prints
it.  Integers print in decimal and the missing value prints as None; the
exact decimal text Python prints for a float is not modelled bit for bit
(no claim depends on it), the float case below is an injective textual
form of the exact rational. -/
def renderValue : PyVal → String
  | PyVal.int n => toString n
  | PyVal.float q => toString q
  | PyVal.none => "None"

/-- The Python repr of an options dict, as interpolated by the f-string
of run_prompt (line 87 of src/main.py): a brace-delimited comma-separated
list of single-quoted keys, each followed by a colon and its value. -/
def renderOptions (m : OptionSet) : String :=
  "\x7b" ++
    String.intercalate ", "
      (m.map (fun p => squote ++ p.1 ++ squote ++ ": " ++ renderValue p.2)) ++
  "\x7d"

/-- The artifact text written by run_prompt (lines 82-90 of src/main.py):
one f-string with the three labeled sections. -/
def renderArtifact (promptText : String) (options : OptionSet)
    (response : String) : String :=
  "# Prompt\n" ++ promptText ++ "\n\n" ++
  "## Options\n" ++ renderOptions options ++ "\n\n" ++
  "# Response\n" ++ response ++ "\n"

/-- One labeled section: heading line, then the body. -/
def sectionBlock (heading body : String) : String := heading ++ "\n" ++ body

/-- Specification-side description of the artifact: the labeled sections
in fixed order, separated by blank lines, with a final newline. -/
def artifactSpec (promptText : String) (options : OptionSet)
    (response : String) : String :=
  String.intercalate "\n\n"
    [sectionBlock "# Prompt" promptText,
     sectionBlock "## Options" (renderOptions options),
     sectionBlock "# Response" response] ++ "\n"

/-- The file system as a map from path to contents; open(path, "w")
followed by write(content) replaces whatever was at path. -/
def writeFile (fs : String → Option String) (path content : String) :
    String → Option String :=
  fun q => if q = path then some content else fs q

/-- Decimal text of a natural number, as the f-string of start renders
the enumerate index (most significant digit first). -/
def natRepr (n : ℕ) : String :=
  if n = 0 then "0"
  else ((Nat.digits 10 n).reverse.map (fun d => Char.ofNat (48 + d))).asString

/-- test_result_file (lines 244-246 of src/main.py):
group directory, slash, prompt id, underscore, option index. -/
def testResultFile (groupDir promptId : String) (i : ℕ) : String :=
  groupDir ++ "/" ++ promptId ++ "_" ++ natRepr i

/-- An observable side effect of the orchestrator. -/
inductive Effect where
  | mkdir (path : String)
  | infer (modelName promptText : String) (options : OptionSet)
      (resultFile : String)
deriving DecidableEq

/-- Effects of the inner option loop for one prompt (lines 243-253 of
src/main.py): one inference call per enumerated option set, writing to
the index-suffixed result file. -/
def promptEffects (groupDir promptId promptText modelName : String)
    (testOptions : List OptionSet) : List Effect :=
  testOptions.enum.map
    (fun io => Effect.infer modelName promptText io.2
      (testResultFile groupDir promptId io.1))

/-- Effects of one retained group iteration (lines 217-253 of
src/main.py): create the group subdirectory, then run every prompt of the
group against every option set. -/
def groupEffects (resultsDir modelName : String) (seed numPredict : PyVal)
    (temps : List ℚ) (ks : List ℤ) (ps : List ℚ)
    (g : String × List (String × String)) : List Effect :=
  let dir := resultsDir ++ "/" ++ g.1
  let testOptions := buildTestOptions (baseOptions seed numPredict) temps ks ps
  Effect.mkdir dir ::
    g.2.flatMap (fun pr => promptEffects dir pr.1 pr.2 modelName testOptions)

/-- o differs from base in at most one key: some key exists outside of
which every lookup agrees with base. -/
def differsInAtMostOneKey (base o : OptionSet) : Prop :=
  ∃ key, ∀ k, k ≠ key → getKey o k = getKey base k

/-- The group-filter test (line 214 of src/main.py): a group is skipped
when a filter is set and differs from the group name. -/
def skipsGroup (groupFilter : Option String) (name : String) : Bool :=
  match groupFilter with
  | some f => name ≠ f
  | Option.none => false

/-- Effects of the whole orchestrator loop of start (lines 208-253 of
src/main.py): create the results root, then iterate the groups in corpus
order, skipping filtered-out groups entirely. -/
def startEffects (resultsDir modelName : String) (groupFilter : Option String)
    (seed numPredict : PyVal) (temps : List ℚ) (ks : List ℤ) (ps : List ℚ)
    (prompts : List (String × List (String × String))) : List Effect :=
  Effect.mkdir resultsDir ::
    prompts.flatMap (fun g =>
      if skipsGroup groupFilter g.1 then []
      else groupEffects resultsDir modelName seed numPredict temps ks ps g)

/-! ## Helper lemmas -/

lemma getKey_append_single_ne (m : OptionSet) (key k : String) (v : PyVal)
    (h : k ≠ key) : getKey (m ++ [(key, v)]) k = getKey m k := by
  induction m with
  | nil => simp [getKey, h]
  | cons p rest ih =>
      obtain ⟨k1, v1⟩ := p
      by_cases hk : k = k1 <;> simp [getKey, hk, ih]

lemma getKey_overwrite_ne (m : OptionSet) (key k : String) (v : PyVal)
    (h : k ≠ key) :
    getKey (m.map (fun p => if p.1 = key then (key, v) else p)) k = getKey m k := by
  induction m with
  | nil => simp [getKey]
  | cons p rest ih =>
      obtain ⟨k1, v1⟩ := p
      rw [List.map_cons]
      by_cases h1 : k1 = key
      · subst h1
        rw [if_pos (show ((k1, v1) : String × PyVal).1 = k1 from rfl)]
        simp only [getKey]
        rw [if_neg h, if_neg h]
        exact ih
      · rw [if_neg (show ¬ ((k1, v1) : String × PyVal).1 = key from h1)]
        simp only [getKey]
        by_cases hk : k = k1
        · rw [if_pos hk, if_pos hk]
        · rw [if_neg hk, if_neg hk]
          exact ih

lemma getKey_setKey_ne (m : OptionSet) (key : String) (v : PyVal) (k : String)
    (h : k ≠ key) : getKey (setKey m key v) k = getKey m k := by
  unfold setKey
  split
  · exact getKey_overwrite_ne m key k v h
  · exact getKey_append_single_ne m key k v h

lemma mem_buildTestOptions (base : OptionSet) (temps : List ℚ) (ks : List ℤ)
    (ps : List ℚ) (o : OptionSet)
    (ho : o ∈ buildTestOptions base temps ks ps) :
    (∃ t ∈ temps, o = setKey base "temperature" (PyVal.float t)) ∨
    (∃ k ∈ ks, o = setKey base "top_k" (PyVal.int k)) ∨
    (∃ p ∈ ps, o = setKey base "top_p" (PyVal.float p)) := by
  unfold buildTestOptions at ho
  rcases List.mem_append.1 ho with h | h
  · rcases List.mem_append.1 h with h1 | h1
    · obtain ⟨t, ht, rfl⟩ := List.mem_map.1 h1
      exact Or.inl ⟨t, ht, rfl⟩
    · obtain ⟨k, hk, rfl⟩ := List.mem_map.1 h1
      exact Or.inr (Or.inl ⟨k, hk, rfl⟩)
  · obtain ⟨p, hp, rfl⟩ := List.mem_map.1 h
    exact Or.inr (Or.inr ⟨p, hp, rfl⟩)

lemma rangeLoopRounded_none_of_nonpos (mx inc : ℚ) (hinc : inc ≤ 0) :
    ∀ (fuel : ℕ) (t : ℚ) (acc : List ℚ), t ≤ mx →
      rangeLoopRounded mx inc fuel t acc = Option.none
  | 0, _, _, _ => rfl
  | fuel + 1, t, acc, h => by
      simp only [rangeLoopRounded, if_pos h]
      exact rangeLoopRounded_none_of_nonpos mx inc hinc fuel (t + inc)
        (acc ++ [round2 t]) (by linarith)

lemma foldl_append_concatFrags (l : List String) :
    ∀ acc : String, l.foldl (fun r c => r ++ c) acc = acc ++ concatFrags l := by
  induction l with
  | nil => intro acc; simp [concatFrags]
  | cons c rest ih =>
      intro acc
      simp only [List.foldl_cons, concatFrags, ih, String.append_assoc]

/-! ## Claims -/

/-- C1 counterexample: with every parameter in fixed-value mode
(temperature 1, top_k 1, top_p 2, seed 42, num_predict missing), the
built sequence of option-sets is not the single-element sequence
holding just base_options. -/
theorem c1_counterexample :
    buildTestOptions (baseOptions (PyVal.int 42) PyVal.none) [1] [1] [2] ≠
      [baseOptions (PyVal.int 42) PyVal.none] := by
  decide

/-- C1 (amended): if no parameter is swept, the built sequence has
exactly three option-sets, one per sweepable parameter, each equal to
base_options extended with that parameter at its fixed value. -/
theorem c1_fixed_mode_three_sets (seed np : PyVal) (t : ℚ) (k : ℤ) (p : ℚ) :
    buildTestOptions (baseOptions seed np) [t] [k] [p] =
      [baseOptions seed np ++ [("temperature", PyVal.float t)],
       baseOptions seed np ++ [("top_k", PyVal.int k)],
       baseOptions seed np ++ [("top_p", PyVal.float p)]] := by
  simp [buildTestOptions, setKey, baseOptions]

/-- C3: the code performs no configuration validation.  With a
non-positive increment and min below max the range loop never
terminates (it returns Option.none for every fuel bound), and with
min above max it silently yields the empty value list instead of
aborting with a configuration error. -/
theorem c3_no_validation :
    (∀ (mn mx inc : ℚ) (fuel : ℕ) (acc : List ℚ), inc ≤ 0 → mn ≤ mx →
        rangeLoopRounded mx inc fuel mn acc = Option.none) ∧
    (∀ (mn mx inc : ℚ) (fuel : ℕ), mx < mn →
        rangeLoopRounded mx inc (fuel + 1) mn [] = some []) := by
  constructor
  · intro mn mx inc fuel acc hinc hle
    exact rangeLoopRounded_none_of_nonpos mx inc hinc fuel mn acc hle
  · intro mn mx inc fuel h
    simp only [rangeLoopRounded, if_neg (not_le.2 h)]

/-- C3 witness: a temperature range 0..1 with increment 0 makes the
loop diverge, and a range with min 1 above max 0 silently expands to
no values. -/
theorem c3_witness :
    rangeLoopRounded 1 0 100 0 [] = Option.none ∧
    rangeLoopRounded 0 1 5 1 [] = some [] :=
  ⟨c3_no_validation.1 0 1 0 100 [] le_rfl (by norm_num),
   c3_no_validation.2 1 0 1 4 (by norm_num)⟩

/-- C4: the built sequence of option-sets has length equal to the sum
of the numbers of expanded values of the three sweepable parameters,
and every emitted option-set differs from base_options in at most one
key. -/
theorem c4_independent_sweep (base : OptionSet) (temps : List ℚ)
    (ks : List ℤ) (ps : List ℚ) :
    (buildTestOptions base temps ks ps).length =
      temps.length + ks.length + ps.length ∧
    ∀ o ∈ buildTestOptions base temps ks ps, differsInAtMostOneKey base o := by
  constructor
  · simp [buildTestOptions]
    omega
  · intro o ho
    rcases mem_buildTestOptions base temps ks ps o ho with
      ⟨t, _, rfl⟩ | ⟨k, _, rfl⟩ | ⟨p, _, rfl⟩
    · exact ⟨"temperature", fun k hk => getKey_setKey_ne _ _ _ _ hk⟩
    · exact ⟨"top_k", fun k hk => getKey_setKey_ne _ _ _ _ hk⟩
    · exact ⟨"top_p", fun k hk => getKey_setKey_ne _ _ _ _ hk⟩

/-- C4 witness at a concrete sweep: one temperature, one top_k and two
top_p values give four option-sets, and the first emitted set differs
from base_options in at most one key. -/
theorem c4_witness :
    (buildTestOptions (baseOptions (PyVal.int 42) PyVal.none) [1] [3] [2, 4]).length
        = 1 + 1 + 2 ∧
    differsInAtMostOneKey (baseOptions (PyVal.int 42) PyVal.none)
      (setKey (baseOptions (PyVal.int 42) PyVal.none) "temperature" (PyVal.float 1)) :=
  ⟨(c4_independent_sweep (baseOptions (PyVal.int 42) PyVal.none) [1] [3] [2, 4]).1,
   (c4_independent_sweep (baseOptions (PyVal.int 42) PyVal.none) [1] [3] [2, 4]).2
     _ (by decide)⟩

/-- C6: the streaming collector returns the concatenation of the
fragments in arrival order with no separator, and the empty stream
collects to the empty string. -/
theorem c6_collector :
    (∀ chunks : List String, collectStream chunks = concatFrags chunks) ∧
    collectStream [] = "" := by
  constructor
  · intro chunks
    unfold collectStream
    rw [foldl_append_concatFrags]
    exact String.empty_append _
  · rfl

/-- C9: every emitted option-set keeps the base options: looking up
seed and num_predict in any member of the built sequence returns
exactly the invocation values. -/
theorem c9_base_options_kept (seed np : PyVal) (temps : List ℚ) (ks : List ℤ)
    (ps : List ℚ) :
    ∀ o ∈ buildTestOptions (baseOptions seed np) temps ks ps,
      getKey o "seed" = some seed ∧ getKey o "num_predict" = some np := by
  intro o ho
  rcases mem_buildTestOptions _ temps ks ps o ho with
    ⟨t, _, rfl⟩ | ⟨k, _, rfl⟩ | ⟨p, _, rfl⟩ <;>
    constructor <;>
    rw [getKey_setKey_ne _ _ _ _ (by decide)] <;>
    simp [baseOptions, getKey]

/-- C9 witness: in the concrete sweep with seed 42 and num_predict
missing, the first emitted option-set maps seed to 42 and num_predict
to None. -/
theorem c9_witness :
    getKey (setKey (baseOptions (PyVal.int 42) PyVal.none) "temperature"
        (PyVal.float 1)) "seed" = some (PyVal.int 42) ∧
    getKey (setKey (baseOptions (PyVal.int 42) PyVal.none) "temperature"
        (PyVal.float 1)) "num_predict" = some PyVal.none :=
  c9_base_options_kept (PyVal.int 42) PyVal.none [1] [3] [2] _ (by decide)

/-- C10: range expansion is deterministic; it is a function of the
value, min, max and increment inputs alone, so equal inputs give equal
expanded sequences. -/
theorem c10_expansion_deterministic (v1 v2 : ℚ) (mn1 mn2 mx1 mx2 : Option ℚ)
    (inc1 inc2 : ℚ) (fuel : ℕ) (hv : v1 = v2) (hmn : mn1 = mn2)
    (hmx : mx1 = mx2) (hinc : inc1 = inc2) :
    temperatureValues v1 mn1 mx1 inc1 fuel =
      temperatureValues v2 mn2 mx2 inc2 fuel := by
  subst hv; subst hmn; subst hmx; subst hinc; rfl

/-- C10 witness: two expansions of the temperature range 0..1/5 with
increment 1/10 agree. -/
theorem c10_witness :
    temperatureValues 1 (some 0) (some (1/5)) (1/10) 20 =
      temperatureValues 1 (some 0) (some (1/5)) (1/10) 20 :=
  c10_expansion_deterministic 1 1 (some 0) (some 0) (some (1/5)) (some (1/5))
    (1/10) (1/10) 20 rfl rfl rfl rfl

lemma startEffects_all_skipped (resultsDir modelName filt : String)
    (seed np : PyVal) (temps : List ℚ) (ks : List ℤ) (ps : List ℚ) :
    ∀ prompts : List (String × List (String × String)),
      (∀ g ∈ prompts, g.1 ≠ filt) →
      startEffects resultsDir modelName (some filt) seed np temps ks ps prompts =
        [Effect.mkdir resultsDir] := by
  intro prompts h
  unfold startEffects
  have : prompts.flatMap (fun g =>
      if skipsGroup (some filt) g.1 then []
      else groupEffects resultsDir modelName seed np temps ks ps g) = [] := by
    induction prompts with
    | nil => rfl
    | cons g rest ih =>
        rw [List.flatMap_cons, if_pos (by simp [skipsGroup, h g (List.mem_cons_self g rest)]),
          List.nil_append]
        exact ih (fun g' hg' => h g' (List.mem_cons_of_mem g hg'))
  rw [this]

/-- C7: a group whose name differs from a set group filter contributes
no side effects at all: dropping it from the corpus leaves the
orchestrator effect trace unchanged; and when the filter names no group
of the corpus, the trace is exactly the creation of the results root,
with no group subdirectory created and no inference call issued. -/
theorem c7_group_filter :
    (∀ (resultsDir modelName filt : String) (seed np : PyVal) (temps : List ℚ)
       (ks : List ℤ) (ps : List ℚ) (g : String × List (String × String))
       (rest : List (String × List (String × String))), g.1 ≠ filt →
       startEffects resultsDir modelName (some filt) seed np temps ks ps (g :: rest) =
         startEffects resultsDir modelName (some filt) seed np temps ks ps rest) ∧
    (∀ (resultsDir modelName filt : String) (seed np : PyVal) (temps : List ℚ)
       (ks : List ℤ) (ps : List ℚ)
       (prompts : List (String × List (String × String))),
       (∀ g ∈ prompts, g.1 ≠ filt) →
       startEffects resultsDir modelName (some filt) seed np temps ks ps prompts =
         [Effect.mkdir resultsDir]) := by
  constructor
  · intro resultsDir modelName filt seed np temps ks ps g rest h
    unfold startEffects
    rw [List.flatMap_cons, if_pos (by simp [skipsGroup, h]), List.nil_append]
  · exact startEffects_all_skipped

/-- C7 witness: with one group named a and the filter set to b, the
orchestrator only creates the results root; and dropping the filtered
group changes nothing. -/
theorem c7_witness :
    startEffects "results_20251012" "llama3.1" (some "b") (PyVal.int 42)
        PyVal.none [1] [1] [1] [("a", [("p", "hello")])] =
      startEffects "results_20251012" "llama3.1" (some "b") (PyVal.int 42)
        PyVal.none [1] [1] [1] [] ∧
    startEffects "results_20251012" "llama3.1" (some "b") (PyVal.int 42)
        PyVal.none [1] [1] [1] [("a", [("p", "hello")])] =
      [Effect.mkdir "results_20251012"] :=
  ⟨c7_group_filter.1 "results_20251012" "llama3.1" "b" (PyVal.int 42)
      PyVal.none [1] [1] [1] ("a", [("p", "hello")]) [] (by decide),
   c7_group_filter.2 "results_20251012" "llama3.1" "b" (PyVal.int 42)
      PyVal.none [1] [1] [1] [("a", [("p", "hello")])]
      (by intro g hg; simp at hg; simp [hg])⟩

/-- C8: the persisted artifact is exactly the fixed-order labeled
sections (prompt under the heading # Prompt, the option-set rendered as
a mapping literal under ## Options, the response under # Response,
separated by blank lines and ending in a newline), and writing replaces
whatever was previously stored at the path. -/
theorem c8_persister :
    (∀ (p : String) (o : OptionSet) (r : String),
       renderArtifact p o r = artifactSpec p o r) ∧
    (∀ (fs : String → Option String) (path c : String),
       writeFile fs path c path = some c) := by
  constructor
  · intro p o r
    simp only [renderArtifact, artifactSpec, sectionBlock, String.intercalate,
      String.intercalate.go]
    simp [String.append_assoc]
    rw [← String.append_assoc "\n\n" "## Options\n",
      ← String.append_assoc "\n\n" "# Response\n"]
    simp
  · intro fs path c
    simp [writeFile]

lemma floor_le_rhe (q : ℚ) : ⌊q⌋ ≤ rhe q := by
  unfold rhe; split_ifs <;> omega

lemma rhe_le_floor_add_one (q : ℚ) : rhe q ≤ ⌊q⌋ + 1 := by
  unfold rhe; split_ifs <;> omega

lemma le_rhe (q : ℚ) : q - 1/2 ≤ (rhe q : ℚ) := by
  unfold rhe
  split_ifs <;> push_cast <;>
    linarith [Int.lt_floor_add_one q, Int.floor_le q]

lemma rhe_le (q : ℚ) : (rhe q : ℚ) ≤ q + 1/2 := by
  unfold rhe
  split_ifs <;> push_cast <;>
    linarith [Int.lt_floor_add_one q, Int.floor_le q]

lemma rhe_mono : Monotone rhe := by
  intro x y hxy
  have hf : ⌊x⌋ ≤ ⌊y⌋ := Int.floor_le_floor hxy
  rcases eq_or_lt_of_le hf with heq | hlt
  · unfold rhe
    rw [heq]
    split_ifs <;> first | omega | (exfalso; linarith)
  · calc rhe x ≤ ⌊x⌋ + 1 := rhe_le_floor_add_one x
      _ ≤ ⌊y⌋ := by omega
      _ ≤ rhe y := floor_le_rhe y

lemma round2_le (q : ℚ) : round2 q ≤ q + 1/200 := by
  unfold round2
  rw [div_le_iff₀ (by norm_num : (0:ℚ) < 100)]
  have := rhe_le (100 * q)
  linarith

lemma le_round2 (q : ℚ) : q - 1/200 ≤ round2 q := by
  unfold round2
  rw [le_div_iff₀ (by norm_num : (0:ℚ) < 100)]
  have := le_rhe (100 * q)
  linarith

lemma round2_mono {x y : ℚ} (h : x ≤ y) : round2 x ≤ round2 y := by
  unfold round2
  gcongr
  exact_mod_cast rhe_mono (by linarith : 100 * x ≤ 100 * y)

lemma round2_cons_reindex (t inc : ℚ) (n : ℕ) :
    round2 t :: (List.range n).map (fun k : ℕ => round2 (t + inc + (k : ℚ) * inc)) =
      (List.range (n + 1)).map (fun k : ℕ => round2 (t + (k : ℚ) * inc)) := by
  rw [List.range_succ_eq_map, List.map_cons, List.map_map]
  congr 1
  · norm_num
  · apply List.map_congr_left
    intro k _
    simp only [Function.comp_apply]
    congr 1
    push_cast
    ring

lemma rangeLoopRounded_spec (mx inc : ℚ) (hinc : 0 < inc) :
    ∀ (fuel : ℕ) (t : ℚ) (acc : List ℚ), t ≤ mx →
      Int.toNat ⌊(mx - t) / inc⌋ + 2 ≤ fuel →
      rangeLoopRounded mx inc fuel t acc =
        some (acc ++ (List.range (Int.toNat ⌊(mx - t) / inc⌋ + 1)).map
          (fun k : ℕ => round2 (t + (k : ℚ) * inc))) := by
  intro fuel
  induction fuel with
  | zero => intro t acc ht hf; exact absurd hf (by omega)
  | succ f ih =>
      intro t acc ht hf
      have h0 : inc ≠ 0 := ne_of_gt hinc
      have hnn : (0:ℚ) ≤ (mx - t) / inc := div_nonneg (by linarith) hinc.le
      have hflnn : 0 ≤ ⌊(mx - t) / inc⌋ := Int.floor_nonneg.2 hnn
      simp only [rangeLoopRounded, if_pos ht]
      by_cases h2 : t + inc ≤ mx
      · have hstep : (mx - (t + inc)) / inc = (mx - t) / inc - 1 := by
          field_simp
          ring
        have hfl : ⌊(mx - (t + inc)) / inc⌋ = ⌊(mx - t) / inc⌋ - 1 := by
          rw [hstep, Int.floor_sub_one]
        have h1le : 1 ≤ ⌊(mx - t) / inc⌋ := by
          apply Int.le_floor.2
          rw [Int.cast_one, le_div_iff₀ hinc]
          linarith
        rw [ih (t + inc) (acc ++ [round2 t]) h2 (by rw [hfl]; omega)]
        congr 1
        rw [hfl, List.append_assoc, List.singleton_append]
        congr 1
        have hra : Int.toNat ⌊(mx - t) / inc⌋ + 1 =
            (Int.toNat (⌊(mx - t) / inc⌋ - 1) + 1) + 1 := by omega
        rw [hra]
        exact round2_cons_reindex t inc (Int.toNat (⌊(mx - t) / inc⌋ - 1) + 1)
      · have hflz : ⌊(mx - t) / inc⌋ = 0 := by
          apply Int.floor_eq_zero_iff.2
          exact ⟨hnn, by rw [div_lt_one hinc]; linarith⟩
        obtain ⟨f', rfl⟩ : ∃ f', f = f' + 1 :=
          ⟨f - 1, by rw [hflz] at hf; omega⟩
        simp only [rangeLoopRounded, if_neg h2, hflz]
        simp [List.range_succ]

/-- C2 counterexample: two range-mode expansions with positive increment
and min at most max on which the claim fails.  With min = max = 3/500
(0.006) and increment 1 the single emitted value round(0.006, 2) = 0.01
exceeds max; with min 0, max 1/500 (0.002) and increment 1/1000 (0.001)
the emitted values 0.0, 0.0, 0.0 are not strictly increasing. -/
theorem c2_counterexample :
    (rangeLoopRounded (3/500) 1 10 (3/500) [] = some [1/100] ∧
      ¬ ((1:ℚ)/100 ≤ 3/500)) ∧
    (rangeLoopRounded (1/500) (1/1000) 10 0 [] = some [0, 0, 0] ∧
      ¬ List.Chain' (· < ·) ([0, 0, 0] : List ℚ)) := by
  refine ⟨⟨?_, by norm_num⟩, ?_, ?_⟩
  · norm_num [rangeLoopRounded, round2, rhe]
  · norm_num [rangeLoopRounded, round2, rhe]
  · simp

/-- C2 (amended): for a range-mode expansion with increment above 0 and
min at most max, given enough fuel, the loop terminates; the count of
emitted values equals floor((max - min) / increment) + 1, the value at
position k is (min + k * increment) rounded to two decimal places, the
values are nondecreasing, and every emitted value lies within 1/200 of
the closed interval from min to max (rounding can step just outside it,
and can also repeat a value, so strict increase and exact containment do
not hold in general); the temperature scenario min 0, max 1/5, increment
1/10 expands to exactly the three values 0, 1/10, 1/5. -/
theorem c2_range_expansion :
    (∀ (mn mx inc : ℚ) (fuel : ℕ), 0 < inc → mn ≤ mx →
      Int.toNat ⌊(mx - mn) / inc⌋ + 2 ≤ fuel →
      ∃ vs, rangeLoopRounded mx inc fuel mn [] = some vs ∧
        vs.length = Int.toNat ⌊(mx - mn) / inc⌋ + 1 ∧
        vs = (List.range (Int.toNat ⌊(mx - mn) / inc⌋ + 1)).map
          (fun k : ℕ => round2 (mn + (k : ℚ) * inc)) ∧
        List.Chain' (· ≤ ·) vs ∧
        ∀ v ∈ vs, mn - 1/200 ≤ v ∧ v ≤ mx + 1/200) ∧
    temperatureValues 1 (some 0) (some (1/5)) (1/10) 10 = some [0, 1/10, 1/5] := by
  constructor
  · intro mn mx inc fuel hinc hle hf
    refine ⟨_, rangeLoopRounded_spec mx inc hinc fuel mn [] hle hf, ?_, ?_, ?_, ?_⟩
    · simp
    · simp
    · rw [List.nil_append, List.chain'_map, List.chain'_range_succ]
      intro m _
      apply round2_mono
      have h1 : (m : ℚ) * inc ≤ ((m : ℚ) + 1) * inc :=
        mul_le_mul_of_nonneg_right (by linarith) hinc.le
      push_cast
      linarith
    · intro v hv
      rw [List.nil_append, List.mem_map] at hv
      obtain ⟨k, hk, rfl⟩ := hv
      rw [List.mem_range] at hk
      have hkb : (k : ℚ) * inc ≤ mx - mn := by
        rw [← le_div_iff₀ hinc]
        calc (k : ℚ) ≤ (Int.toNat ⌊(mx - mn) / inc⌋ : ℚ) := by
              exact_mod_cast Nat.le_of_lt_succ hk
          _ = ((⌊(mx - mn) / inc⌋ : ℤ) : ℚ) := by
              have hFnn : (0:ℤ) ≤ ⌊(mx - mn) / inc⌋ :=
                Int.floor_nonneg.2
                  (div_nonneg (by linarith : (0:ℚ) ≤ mx - mn) hinc.le)
              exact_mod_cast congrArg (fun z : ℤ => (z : ℚ))
                (Int.toNat_of_nonneg hFnn)
          _ ≤ (mx - mn) / inc := Int.floor_le _
      have hk0 : (0:ℚ) ≤ (k : ℚ) * inc :=
        mul_nonneg (Nat.cast_nonneg k) hinc.le
      constructor
      · have := le_round2 (mn + k * inc)
        linarith
      · have := round2_le (mn + k * inc)
        linarith
  · norm_num [temperatureValues, rangeLoopRounded, round2, rhe]

/-- C2 witness: the general part of the amended theorem applied to the
concrete temperature range min 0, max 1/5, increment 1/10 with fuel 10. -/
theorem c2_witness :
    ∃ vs, rangeLoopRounded (1/5) (1/10) 10 0 [] = some vs ∧
      vs.length = Int.toNat ⌊(((1:ℚ)/5 - 0) / (1/10))⌋ + 1 ∧
      vs = (List.range (Int.toNat ⌊(((1:ℚ)/5 - 0) / (1/10))⌋ + 1)).map
        (fun k : ℕ => round2 (0 + (k : ℚ) * (1/10))) ∧
      List.Chain' (· ≤ ·) vs ∧
      ∀ v ∈ vs, 0 - 1/200 ≤ v ∧ v ≤ 1/5 + 1/200 :=
  c2_range_expansion.1 0 (1/5) (1/10) 10 (by norm_num) (by norm_num)
    (by norm_num
        decide)

lemma digitChar_inj :
    ∀ d1 < 10, ∀ d2 < 10, Char.ofNat (48 + d1) = Char.ofNat (48 + d2) → d1 = d2 := by
  decide

lemma map_digitChar_inj :
    ∀ (l1 l2 : List ℕ), (∀ d ∈ l1, d < 10) → (∀ d ∈ l2, d < 10) →
      l1.map (fun d => Char.ofNat (48 + d)) = l2.map (fun d => Char.ofNat (48 + d)) →
      l1 = l2
  | [], [], _, _, _ => rfl
  | [], _ :: _, _, _, h => by simp at h
  | _ :: _, [], _, _, h => by simp at h
  | a :: t1, b :: t2, h1, h2, h => by
      simp only [List.map_cons, List.cons.injEq] at h
      have ha := h1 a (List.mem_cons_self a t1)
      have hb := h2 b (List.mem_cons_self b t2)
      rw [digitChar_inj a ha b hb h.1,
        map_digitChar_inj t1 t2 (fun d hd => h1 d (List.mem_cons_of_mem a hd))
          (fun d hd => h2 d (List.mem_cons_of_mem b hd)) h.2]

lemma digits_render_ne_zero_char (n : ℕ) (hn : n ≠ 0) :
    (Nat.digits 10 n).reverse.map (fun d => Char.ofNat (48 + d)) ≠
      [Char.ofNat 48] := by
  intro hc
  have hrev : (Nat.digits 10 n).reverse = [0] := by
    apply map_digitChar_inj
    · intro d hd
      rw [List.mem_reverse] at hd
      exact Nat.digits_lt_base (by norm_num) hd
    · intro d hd
      simp at hd
      omega
    · simpa using hc
  have hdig : Nat.digits 10 n = [0] := by
    have := congrArg List.reverse hrev
    simpa using this
  have hz : n = 0 := by
    have ho := Nat.ofDigits_digits 10 n
    rw [hdig] at ho
    simpa [Nat.ofDigits] using ho.symm
  exact hn hz

lemma natRepr_injective : Function.Injective natRepr := by
  intro m n h
  unfold natRepr at h
  by_cases hm : m = 0 <;> by_cases hn : n = 0
  · rw [hm, hn]
  · rw [if_pos hm, if_neg hn] at h
    exact absurd (congrArg String.data h).symm (digits_render_ne_zero_char n hn)
  · rw [if_neg hm, if_pos hn] at h
    exact absurd (congrArg String.data h) (digits_render_ne_zero_char m hm)
  · rw [if_neg hm, if_neg hn] at h
    have hd : (Nat.digits 10 m).reverse.map (fun d => Char.ofNat (48 + d)) =
        (Nat.digits 10 n).reverse.map (fun d => Char.ofNat (48 + d)) :=
      congrArg String.data h
    have hrev := map_digitChar_inj _ _
      (fun d hd' => Nat.digits_lt_base (by norm_num) (List.mem_reverse.1 hd'))
      (fun d hd' => Nat.digits_lt_base (by norm_num) (List.mem_reverse.1 hd')) hd
    have hdig : Nat.digits 10 m = Nat.digits 10 n := by
      have := congrArg List.reverse hrev
      simpa using this
    exact Nat.digits.injective 10 hdig

/-- C5: for one prompt, no two option-set indices give the same result
file path: the enumerate suffix makes every computed artifact path
distinct. -/
theorem c5_paths_unique (groupDir promptId : String) (i j : ℕ) (hij : i ≠ j) :
    testResultFile groupDir promptId i ≠ testResultFile groupDir promptId j := by
  intro h
  apply hij
  apply natRepr_injective
  have hd := congrArg String.data h
  simp only [testResultFile, String.data_append, List.append_assoc] at hd
  exact String.ext (List.append_cancel_left (List.append_cancel_left
    (List.append_cancel_left (List.append_cancel_left hd))))

/-- C5 witness: for the first prompt of a group, the paths of option
sets 0 and 1 differ. -/
theorem c5_witness :
    testResultFile "results_20251012/basic" "greet" 0 ≠
      testResultFile "results_20251012/basic" "greet" 1 :=
  c5_paths_unique "results_20251012/basic" "greet" 0 1 (by decide)
